import Mathlib

/-!
Verification development for the swagger-mcp-server repository.

The file shallowly embeds the parts of the TypeScript source that the
checked properties are about:

* the template engine (src/template-engine.ts, class TemplateEngine):
  regex-driven text substitution for variables, conditional blocks,
  loop blocks and partial includes over a dynamic JS-like value model;
* the optimized parser cache (src/optimized-swagger-parser.ts, class
  OptimizedSwaggerApiParser): two-tier TTL cache, key derivation,
  clearCache, fetchRawApiData, and the progress reports of fetchApi;
* the model projections (filterSchemas in code-generator.ts,
  filterOperations and groupOperations in api-client-generator.ts);
* saveCustomTemplate of template-manager.ts.

Text is modelled as List Char.  JavaScript values are modelled by the
inductive JSValue (numbers as Int; the templates the repository renders
only ever substitute integral numbers).  Unbounded JS recursion (the
engine recurses through nested blocks and partial includes) is modelled
with an explicit fuel parameter; fuel exhaustion returns the input
unchanged and every concrete statement below is evaluated with ample
fuel.  The tag delimiters are fixed at their defaults, the single brace
pair, exactly as produced by the TemplateEngine constructor when no
tagStart/tagEnd option is given (no call site in the repository
overrides them).
-/

namespace SwaggerMcp

/-- JS-like dynamic value: the TemplateVariableValue type of the engine
(string | number | boolean | null | undefined | object | array). -/
inductive JSValue where
  | null : JSValue
  | undefined : JSValue
  | bool (b : Bool) : JSValue
  | num (n : Int) : JSValue
  | str (s : String) : JSValue
  | arr (elems : List JSValue) : JSValue
  | obj (fields : List (String × JSValue)) : JSValue

/-- A template context: a JS object given as an association list in
insertion order (TemplateContext in the source). -/
abbrev Ctx := List (String × JSValue)

mutual

/-- String conversion of a JS array: Array.prototype.toString joins the
elements with commas, rendering null and undefined elements as empty. -/
def jsArrToString : List JSValue → String
  | [] => ""
  | [x] => jsArrElem x
  | x :: y :: rest => jsArrElem x ++ "," ++ jsArrToString (y :: rest)

/-- String conversion of one JS array element (null/undefined become
empty inside a joined array). -/
def jsArrElem : JSValue → String
  | .null => ""
  | .undefined => ""
  | .bool b => if b then "true" else "false"
  | .num n => toString n
  | .str s => s
  | .arr xs => jsArrToString xs
  | .obj _ => "[object Object]"

end

/-- JS String(value) coercion, as used by processVariables. -/
def jsToString : JSValue → String
  | .null => "null"
  | .undefined => "undefined"
  | .bool b => if b then "true" else "false"
  | .num n => toString n
  | .str s => s
  | .arr xs => jsArrToString xs
  | .obj _ => "[object Object]"

/-- First-match lookup in a JS object modelled as an association list
(keys are unique by construction, see setKey). -/
def lookupField : List (String × JSValue) → String → Option JSValue
  | [], _ => none
  | (k, v) :: rest, key => if k = key then some v else lookupField rest key

/-- JS property update: an existing key keeps its position and gets the
new value, a new key is appended (object literal / Object.assign
semantics on an insertion-ordered object). -/
def setKey : List (String × JSValue) → String → JSValue → List (String × JSValue)
  | [], k, v => [(k, v)]
  | (k', v') :: rest, k, v =>
      if k' = k then (k', v) :: rest else (k', v') :: setKey rest k v

/-- JS property access value[part] for one path segment: object field,
array index or length, string index or length; every other access
yields undefined. -/
def getProp : JSValue → String → JSValue
  | .obj fs, key => (lookupField fs key).getD .undefined
  | .arr xs, key =>
      if key = "length" then .num xs.length
      else
        match key.toNat? with
        | some i => (xs.get? i).getD .undefined
        | none => .undefined
  | .str s, key =>
      if key = "length" then .num s.length
      else
        match key.toNat? with
        | some i => ((s.data.get? i).map (fun c => JSValue.str (String.mk [c]))).getD .undefined
        | none => .undefined
  | _, _ => .undefined

/-- JS whitespace recognised by String.prototype.trim (the ASCII part,
which is all the engine call sites can produce). -/
def isJsSpace (c : Char) : Bool :=
  c == ' ' || c == '\t' || c == '\n' || c == '\r'

/-- String.prototype.trim on a character list. -/
def trimChars (s : List Char) : List Char :=
  ((s.dropWhile isJsSpace).reverse.dropWhile isJsSpace).reverse

/-- Helper of splitPath: accumulates the current segment. -/
def splitPathAux : List Char → List Char → List (List Char)
  | [], acc => [acc.reverse]
  | c :: rest, acc =>
      if c = '.' then acc.reverse :: splitPathAux rest []
      else splitPathAux rest (c :: acc)

/-- JS path.split(".") on a character list. -/
def splitPath (s : List Char) : List (List Char) :=
  splitPathAux s []

/-- Walk of getNestedValue: for each segment, a null or undefined
intermediate value short-circuits to undefined, otherwise the property
is accessed; the final value is returned as is. -/
def walkPath : List (List Char) → JSValue → JSValue
  | [], v => v
  | part :: rest, v =>
      match v with
      | .null => .undefined
      | .undefined => .undefined
      | v => walkPath rest (getProp v (String.mk part))

/-- TemplateEngine.getNestedValue: empty path returns the object itself,
otherwise the dotted path is split and walked. -/
def getNestedValue (obj : JSValue) (path : List Char) : JSValue :=
  if path = [] then obj else walkPath (splitPath path) obj

/-- getNestedValue applied to a template context. -/
def getNestedCtx (ctx : Ctx) (path : List Char) : JSValue :=
  getNestedValue (JSValue.obj ctx) path

/-- TemplateEngine.isTruthy: arrays by non-emptiness, then objects by
number of keys (null is excluded by the strict null check and falls
through), otherwise the double-negation boolean coercion. -/
def isTruthy : JSValue → Bool
  | .arr xs => xs.length > 0
  | .obj fs => fs.length > 0
  | .null => false
  | .undefined => false
  | .bool b => b
  | .num n => n != 0
  | .str s => s != ""

/-- The double-negation boolean coercion of JS on its own (spec words:
standard boolean coercion): every object and every array is truthy,
primitives coerce as usual.  Kept separate from isTruthy so the two can
be compared. -/
def jsBoolCoerce : JSValue → Bool
  | .arr _ => true
  | .obj _ => true
  | .null => false
  | .undefined => false
  | .bool b => b
  | .num n => n != 0
  | .str s => s != ""

/-- Characters admitted inside a variable tag path: the regex class of
processVariables excludes the block markers, the slash and both braces. -/
def varPathChar (c : Char) : Bool :=
  c != '#' && c != '/' && c != '?' && c != '>' && c != '{' && c != '}'

/-- Characters admitted inside a block tag path (conditional, loop and
partial tags): only the braces are excluded. -/
def blockPathChar (c : Char) : Bool :=
  c != '{' && c != '}'

/-- Reads a tag path after its opening: characters of the admitted class
up to the closing brace.  Returns the path and the remainder after the
closing brace, or none when a disallowed character or the end of input
is reached first.  The empty path is rejected (the regex classes demand
at least one character). -/
def takeTagPathAux (allowed : Char → Bool) : List Char → Option (List Char × List Char)
  | [] => none
  | c :: rest =>
      if c = '}' then some ([], rest)
      else if allowed c then
        (takeTagPathAux allowed rest).map (fun pr => (c :: pr.1, pr.2))
      else none

/-- takeTagPathAux with the nonempty-path requirement of the regexes. -/
def takeTagPath (allowed : Char → Bool) (s : List Char) : Option (List Char × List Char) :=
  match takeTagPathAux allowed s with
  | some ([], _) => none
  | r => r

/-- First occurrence of tag in the input, lazily: returns the text
before the occurrence and the text after it (the semantics of a lazy
regex body followed by the closing-tag backreference). -/
def findSub (tag : List Char) : List Char → Option (List Char × List Char)
  | [] => if tag.isPrefixOf ([] : List Char) then some ([], []) else none
  | c :: rest =>
      if tag.isPrefixOf (c :: rest) then some ([], (c :: rest).drop tag.length)
      else (findSub tag rest).map (fun pr => (c :: pr.1, pr.2))

/-- Leftmost match of a block regex with marker m, i.e. of
brace-m-path-brace, lazy body, closing tag with the same path.  Returns
(text before the match, path, body, text after the match) exactly as
the global replace of processConditionals and processLoops consumes
matches left to right in the original string. -/
def findBlockTag (m : Char) : List Char → Option (List Char × List Char × List Char × List Char)
  | [] => none
  | c :: rest =>
      let skip := (findBlockTag m rest).map (fun r => (c :: r.1, r.2))
      if c = '{' then
        match rest with
        | [] => none
        | c2 :: rest2 =>
            if c2 = m then
              match takeTagPath blockPathChar rest2 with
              | some (path, afterPath) =>
                  match findSub ('{' :: '/' :: (path ++ ['}'])) afterPath with
                  | some (body, rest3) => some ([], path, body, rest3)
                  | none => skip
              | none => skip
            else skip
      else skip

/-- Leftmost match of the variable regex: an opening brace, a nonempty
run of variable-path characters, a closing brace.  Returns (text before
the match, path, text after). -/
def findVarTag : List Char → Option (List Char × List Char × List Char)
  | [] => none
  | c :: rest =>
      let skip := (findVarTag rest).map (fun r => (c :: r.1, r.2))
      if c = '{' then
        match takeTagPath varPathChar rest with
        | some (path, after) => some ([], path, after)
        | none => skip
      else skip

/-- Leftmost match of the partial-include regex: an opening brace, the
greater-than marker, a nonempty run of block-path characters, a closing
brace. -/
def findPartialTag : List Char → Option (List Char × List Char × List Char)
  | [] => none
  | c :: rest =>
      let skip := (findPartialTag rest).map (fun r => (c :: r.1, r.2))
      if c = '{' then
        match rest with
        | [] => none
        | c2 :: rest2 =>
            if c2 = '>' then
              match takeTagPath blockPathChar rest2 with
              | some (name, after) => some ([], name, after)
              | none => skip
            else skip
      else skip

/-- TemplateEngineOptions with the defaults the constructor installs;
the tag delimiters are fixed at the default single braces. -/
structure TemplateEngineOptions where
  preserveUnmatched : Bool := false
  enableConditionals : Bool := true
  enableLoops : Bool := true
  enablePartials : Bool := true

/-- The options of a TemplateEngine constructed with no arguments. -/
def defaultOptions : TemplateEngineOptions := {}

/-- The replacement text the processVariables callback produces for one
matched variable tag: the trimmed path is resolved against the context;
undefined and null keep the literal tag in preserve mode and become
empty otherwise; every other value is String-coerced. -/
def varReplacement (opts : TemplateEngineOptions) (ctx : Ctx) (path : List Char) : List Char :=
  match getNestedCtx ctx (trimChars path) with
  | .undefined => if opts.preserveUnmatched then '{' :: (path ++ ['}']) else []
  | .null => if opts.preserveUnmatched then '{' :: (path ++ ['}']) else []
  | v => (jsToString v).data

/-- TemplateEngine.processVariables: global replace of every variable
tag, left to right, replacements not rescanned.  Fuel bounds the number
of matches processed; each concrete statement below supplies ample
fuel. -/
def processVariables (opts : TemplateEngineOptions) (ctx : Ctx) : Nat → List Char → List Char
  | 0, s => s
  | fuel + 1, s =>
      match findVarTag s with
      | none => s
      | some (pre, path, rest) =>
          pre ++ varReplacement opts ctx path ++ processVariables opts ctx fuel rest

/-- TemplateEngine.processConditionals: global replace of conditional
blocks; a truthy path keeps the body and recursively processes nested
conditionals against the same context, a falsy path drops the body. -/
def processConditionals (ctx : Ctx) : Nat → List Char → List Char
  | 0, s => s
  | fuel + 1, s =>
      match findBlockTag '?' s with
      | none => s
      | some (pre, path, body, rest) =>
          pre ++
            (if isTruthy (getNestedCtx ctx (trimChars path)) then
              processConditionals ctx fuel body
            else []) ++
            processConditionals ctx fuel rest

/-- Copies the own enumerable properties of an item onto the iteration
context (Object.assign): object fields in order, array elements under
their stringified indices; primitives contribute nothing. -/
def assignItemFields (c : Ctx) : JSValue → Ctx
  | .obj fs => fs.foldl (fun acc kv => setKey acc kv.1 kv.2) c
  | .arr xs => (xs.enum).foldl (fun acc iv => setKey acc (toString iv.1) iv.2) c
  | _ => c

/-- The per-iteration context of processLoops: the outer context spread
first, then the loop metadata keys, then the current item under the dot
and this keys, then (for object-typed items) the item fields assigned
on top. -/
def buildItemCtx (ctx : Ctx) (len idx : Nat) (item : JSValue) : Ctx :=
  let c := setKey ctx "@index" (.num idx)
  let c := setKey c "@first" (.bool (idx = 0))
  let c := setKey c "@last" (.bool (idx = len - 1))
  let c := setKey c "@key" (.num idx)
  let c := setKey c "." item
  let c := setKey c "this" item
  assignItemFields c item

mutual

/-- TemplateEngine.processLoops: global replace of loop blocks.  A path
that does not resolve to an array expands to nothing; an array expands
to the per-item renderings joined together. -/
def processLoops (opts : TemplateEngineOptions) (ctx : Ctx) : Nat → List Char → List Char
  | 0, s => s
  | fuel + 1, s =>
      match findBlockTag '#' s with
      | none => s
      | some (pre, path, body, rest) =>
          let expansion :=
            match getNestedCtx ctx (trimChars path) with
            | .arr xs => loopItems opts ctx xs.length body fuel xs.enum
            | _ => []
          pre ++ expansion ++ processLoops opts ctx fuel rest
termination_by structural fuel => fuel

/-- One pass over the enumerated loop items: each iteration builds its
item context and pushes the body through conditionals, loops and
variables in that scope, exactly as the map callback of processLoops
does (the fuel also bounds the number of items walked; every concrete
statement below supplies ample fuel). -/
def loopItems (opts : TemplateEngineOptions) (ctx : Ctx) (len : Nat) (body : List Char) :
    Nat → List (Nat × JSValue) → List Char
  | 0, _ => []
  | _ + 1, [] => []
  | fuel + 1, (i, item) :: rest =>
      let ictx := buildItemCtx ctx len i item
      processVariables opts ictx fuel
          (processLoops opts ictx fuel (processConditionals ictx fuel body)) ++
        loopItems opts ctx len body fuel rest
termination_by structural fuel => fuel

end

mutual

/-- TemplateEngine.processPartials: global replace of partial-include
tags; a registered partial is recursively rendered against the same
context, an unregistered name becomes an inline placeholder comment. -/
def processPartials (opts : TemplateEngineOptions) (pmap : List (String × String)) :
    Nat → Ctx → List Char → List Char
  | 0, _, s => s
  | fuel + 1, ctx, s =>
      match findPartialTag s with
      | none => s
      | some (pre, name, rest) =>
          let trimmed := String.mk (trimChars name)
          let rep :=
            match (pmap.find? (fun p => p.1 = trimmed)).map Prod.snd with
            | none => ("<!-- Partial '" ++ trimmed ++ "' not found -->").data
            | some p => render opts pmap fuel ctx p.data
          pre ++ rep ++ processPartials opts pmap fuel ctx rest
termination_by structural fuel => fuel

/-- TemplateEngine.render: conditionals, then loops, then partials, each
guarded by its enable option, then plain variable substitution. -/
def render (opts : TemplateEngineOptions) (pmap : List (String × String)) :
    Nat → Ctx → List Char → List Char
  | 0, _, t => t
  | fuel + 1, ctx, t =>
      let r1 := if opts.enableConditionals then processConditionals ctx fuel t else t
      let r2 := if opts.enableLoops then processLoops opts ctx fuel r1 else r1
      let r3 := if opts.enablePartials then processPartials opts pmap fuel ctx r2 else r2
      processVariables opts ctx fuel r3
termination_by structural fuel => fuel

end

/-- render on Lean strings, with the default options. -/
def renderS (pmap : List (String × String)) (fuel : Nat) (ctx : Ctx) (t : String) : String :=
  String.mk (render defaultOptions pmap fuel ctx t.data)

/-- The options of an engine configured with preserveUnmatched. -/
def preserveOptions : TemplateEngineOptions := { preserveUnmatched := true }

section AssocLemmas

theorem lookupField_setKey_self (c : List (String × JSValue)) (k : String) (v : JSValue) :
    lookupField (setKey c k v) k = some v := by
  induction c with
  | nil => simp [setKey, lookupField]
  | cons hd tl ih =>
      by_cases h : hd.1 = k
      · simp [setKey, h, lookupField]
      · simp [setKey, h, lookupField, ih]

theorem lookupField_setKey_ne (c : List (String × JSValue)) (k k' : String) (v : JSValue)
    (h : k' ≠ k) : lookupField (setKey c k' v) k = lookupField c k := by
  induction c with
  | nil => simp [setKey, lookupField, h]
  | cons hd tl ih =>
      by_cases h2 : hd.1 = k'
      · simp [setKey, h2, lookupField, h]
      · simp [setKey, h2, lookupField, ih]

theorem lookupField_eq_none_iff (c : List (String × JSValue)) (k : String) :
    lookupField c k = none ↔ ∀ p ∈ c, p.1 ≠ k := by
  induction c with
  | nil => simp [lookupField]
  | cons hd tl ih =>
      by_cases h : hd.1 = k
      · simp [lookupField, h]
      · simp [lookupField, h, ih]

theorem lookupField_foldl_setKey (l : List (String × JSValue)) (c : List (String × JSValue))
    (k : String) (h : ∀ p ∈ l, p.1 ≠ k) :
    lookupField (l.foldl (fun acc kv => setKey acc kv.1 kv.2) c) k = lookupField c k := by
  induction l generalizing c with
  | nil => simp
  | cons hd tl ih =>
      simp only [List.foldl_cons]
      rw [ih _ (fun p hp => h p (List.mem_cons_of_mem hd hp)),
        lookupField_setKey_ne _ _ _ _ (h hd (List.mem_cons_self hd tl))]

theorem lookupField_foldl_setKeyEnum (l : List (Nat × JSValue)) (c : List (String × JSValue))
    (k : String) (h : ∀ p ∈ l, toString p.1 ≠ k) :
    lookupField (l.foldl (fun acc iv => setKey acc (toString iv.1) iv.2) c) k = lookupField c k := by
  induction l generalizing c with
  | nil => simp
  | cons hd tl ih =>
      simp only [List.foldl_cons]
      rw [ih _ (fun p hp => h p (List.mem_cons_of_mem hd hp)),
        lookupField_setKey_ne _ _ _ _ (h hd (List.mem_cons_self hd tl))]

end AssocLemmas

/-- Whether an item would contribute the key k when its own enumerable
properties are assigned onto the iteration context. -/
def itemBinds : JSValue → String → Bool
  | .obj fs, k => (lookupField fs k).isSome
  | .arr xs, k => (xs.enum).any (fun iv => toString iv.1 = k)
  | _, _ => false

theorem lookupField_assignItemFields (c : List (String × JSValue)) (item : JSValue) (k : String)
    (h : itemBinds item k = false) :
    lookupField (assignItemFields c item) k = lookupField c k := by
  cases item with
  | obj fs =>
      refine lookupField_foldl_setKey fs c k ?_
      intro p hp
      have hnone : lookupField fs k = none := by
        cases hlk : lookupField fs k with
        | none => rfl
        | some v => simp [itemBinds, hlk] at h
      exact (lookupField_eq_none_iff fs k).mp hnone p hp
  | arr xs =>
      refine lookupField_foldl_setKeyEnum xs.enum c k ?_
      intro p hp
      simp only [itemBinds, List.any_eq_false, decide_eq_true_eq] at h
      exact h p hp
  | null => rfl
  | undefined => rfl
  | bool b => rfl
  | num n => rfl
  | str s => rfl

/-- C1: for every template string and render context (and any stack
budget), render with the default engine options is exactly the pipeline
that first resolves conditional blocks against the outer context, then
expands loop blocks, then substitutes partial includes, and finally
applies plain variable substitution to the remaining text. -/
theorem render_processing_order (fuel : Nat) (pmap : List (String × String)) (ctx : Ctx)
    (t : List Char) :
    render defaultOptions pmap (fuel + 1) ctx t =
      processVariables defaultOptions ctx fuel
        (processPartials defaultOptions pmap fuel ctx
          (processLoops defaultOptions ctx fuel
            (processConditionals ctx fuel t))) := rfl

/-- C4: the conditional block over flag yields empty for an empty array
and for the number zero, yields X for a one-element array and for the
nonempty string "0"; and in general isTruthy holds exactly on nonempty
arrays, nonempty objects, and non-array non-object values whose
standard boolean coercion is true. -/
theorem conditional_truthiness :
    (renderS [] 20 [("flag", .arr [])] "\x7b?flag\x7dX\x7b/flag\x7d" = "" ∧
      renderS [] 20 [("flag", .arr [.num 1])] "\x7b?flag\x7dX\x7b/flag\x7d" = "X" ∧
      renderS [] 20 [("flag", .num 0)] "\x7b?flag\x7dX\x7b/flag\x7d" = "" ∧
      renderS [] 20 [("flag", .str "0")] "\x7b?flag\x7dX\x7b/flag\x7d" = "X") ∧
    ∀ v : JSValue,
      isTruthy v = true ↔
        ((∃ xs, v = .arr xs ∧ xs ≠ []) ∨ (∃ fs, v = .obj fs ∧ fs ≠ []) ∨
          ((∀ xs, v ≠ .arr xs) ∧ (∀ fs, v ≠ .obj fs) ∧ jsBoolCoerce v = true)) := by
  refine ⟨⟨rfl, rfl, rfl, rfl⟩, ?_⟩
  intro v
  cases v <;> simp [isTruthy, jsBoolCoerce, List.length_pos]

/-- C5 counterexample: when an iteration item itself defines the key
named like the loop metadata, Object.assign copies the item field over
the metadata binding, so at index 1 the resolved value of the first-
iteration marker is the item string, a truthy value, although the claim
demands it be true exactly for index 0.  The rendered loop shows the
shadowed value in place of the metadata boolean. -/
theorem loop_metadata_shadowing_cex :
    renderS [] 20 [("items", JSValue.arr [.obj [], .obj [("@first", .str "yes")]])]
        "\x7b#items\x7d[\x7b@first\x7d]\x7b/items\x7d" = "[true][yes]" ∧
    getNestedCtx (buildItemCtx [] 2 1 (JSValue.obj [("@first", .str "yes")]))
        "@first".data = .str "yes" ∧
    isTruthy (getNestedCtx (buildItemCtx [] 2 1 (JSValue.obj [("@first", .str "yes")]))
        "@first".data) = true := ⟨rfl, rfl, rfl⟩

/-- C5 (amended): the two-item loop renders "ab"; in every iteration
whose item does not itself bind the metadata key, the item scope binds
the first-iteration marker to true exactly at index 0 and the
last-iteration marker to true exactly at index length minus one; and a
loop block whose path does not resolve to an array expands to nothing
in the output. -/
theorem loop_rendering_amended :
    (renderS [] 20 [("items", .arr [.obj [("name", .str "a")], .obj [("name", .str "b")]])]
        "\x7b#items\x7d\x7bname\x7d\x7b/items\x7d" = "ab") ∧
    (∀ (ctx : Ctx) (len i : Nat) (item : JSValue), itemBinds item "@first" = false →
        getNestedCtx (buildItemCtx ctx len i item) "@first".data =
          .bool (decide (i = 0))) ∧
    (∀ (ctx : Ctx) (len i : Nat) (item : JSValue), itemBinds item "@last" = false →
        getNestedCtx (buildItemCtx ctx len i item) "@last".data =
          .bool (decide (i = len - 1))) ∧
    (∀ (opts : TemplateEngineOptions) (ctx : Ctx) (fuel : Nat)
        (s pre path body rest : List Char),
        findBlockTag '#' s = some (pre, path, body, rest) →
        (∀ xs, getNestedCtx ctx (trimChars path) ≠ .arr xs) →
        processLoops opts ctx (fuel + 1) s = pre ++ processLoops opts ctx fuel rest) := by
  refine ⟨rfl, ?_, ?_, ?_⟩
  · intro ctx len i item h
    rw [show getNestedCtx (buildItemCtx ctx len i item) "@first".data
          = (lookupField (buildItemCtx ctx len i item) "@first").getD .undefined from rfl]
    unfold buildItemCtx
    rw [lookupField_assignItemFields _ _ _ h,
      lookupField_setKey_ne _ _ _ _ (by decide),
      lookupField_setKey_ne _ _ _ _ (by decide),
      lookupField_setKey_ne _ _ _ _ (by decide),
      lookupField_setKey_ne _ _ _ _ (by decide),
      lookupField_setKey_self]
    rfl
  · intro ctx len i item h
    rw [show getNestedCtx (buildItemCtx ctx len i item) "@last".data
          = (lookupField (buildItemCtx ctx len i item) "@last").getD .undefined from rfl]
    unfold buildItemCtx
    rw [lookupField_assignItemFields _ _ _ h,
      lookupField_setKey_ne _ _ _ _ (by decide),
      lookupField_setKey_ne _ _ _ _ (by decide),
      lookupField_setKey_ne _ _ _ _ (by decide),
      lookupField_setKey_self]
    rfl
  · intro opts ctx fuel s pre path body rest hfind hne
    rw [processLoops, hfind]
    cases hval : getNestedCtx ctx (trimChars path) with
    | arr xs => exact absurd hval (hne xs)
    | null => simp
    | undefined => simp
    | bool b => simp
    | num n => simp
    | str s2 => simp
    | obj fs => simp

/-- C5 amended witness: the metadata lemmas and the non-array lemma
instantiated at concrete inputs. -/
theorem loop_rendering_amended_witness :
    getNestedCtx (buildItemCtx [] 2 1 (JSValue.obj [("name", .str "b")])) "@first".data =
        JSValue.bool false ∧
    getNestedCtx (buildItemCtx [] 2 1 (JSValue.obj [("name", .str "b")])) "@last".data =
        JSValue.bool true ∧
    processLoops defaultOptions [("items", JSValue.num 5)] 2
        "\x7b#items\x7dX\x7b/items\x7d".data = [] := by
  refine ⟨?_, ?_, ?_⟩
  · exact loop_rendering_amended.2.1 [] 2 1 (JSValue.obj [("name", .str "b")]) rfl
  · exact loop_rendering_amended.2.2.1 [] 2 1 (JSValue.obj [("name", .str "b")]) rfl
  · have h := loop_rendering_amended.2.2.2 defaultOptions [("items", JSValue.num 5)] 1
      "\x7b#items\x7dX\x7b/items\x7d".data [] "items".data ['X'] [] rfl
      (by
        intro xs hx
        have h5 : JSValue.num 5 = JSValue.arr xs := hx
        exact JSValue.noConfusion h5)
    simpa using h

/-- C10: a resolved value that is neither undefined nor null is
substituted by its standard string coercion in both modes (so false
renders as the text false, zero as the digit, the empty string as
empty); an undefined or null resolution becomes the empty string in the
default mode and keeps the literal tag text in preserve-unmatched
mode. -/
theorem variable_substitution_spec :
    (∀ (ctx : Ctx) (path : List Char) (v : JSValue),
        getNestedCtx ctx (trimChars path) = v → v ≠ .undefined → v ≠ .null →
          varReplacement defaultOptions ctx path = (jsToString v).data ∧
          varReplacement preserveOptions ctx path = (jsToString v).data) ∧
    (∀ (ctx : Ctx) (path : List Char),
        getNestedCtx ctx (trimChars path) = .undefined ∨
          getNestedCtx ctx (trimChars path) = .null →
          varReplacement defaultOptions ctx path = [] ∧
          varReplacement preserveOptions ctx path = '{' :: (path ++ ['}'])) ∧
    renderS [] 20 [("flag", .bool false)] "\x7bflag\x7d" = "false" := by
  refine ⟨?_, ?_, rfl⟩
  · intro ctx path v hv hu hn
    cases v <;> simp_all [varReplacement]
  · intro ctx path hv
    rcases hv with h | h <;> simp [varReplacement, h, defaultOptions, preserveOptions]

/-- C10 witness: the substitution lemmas instantiated at a false-valued
variable and at a missing variable. -/
theorem variable_substitution_spec_witness :
    varReplacement defaultOptions [("flag", JSValue.bool false)] "flag".data = "false".data ∧
    varReplacement defaultOptions [] "missing".data = [] ∧
    varReplacement preserveOptions [] "missing".data = '{' :: ("missing".data ++ ['}']) := by
  refine ⟨?_, ?_, ?_⟩
  · exact (variable_substitution_spec.1 [("flag", JSValue.bool false)] "flag".data
      (JSValue.bool false) rfl (by simp) (by simp)).1
  · exact (variable_substitution_spec.2.1 [] "missing".data (Or.inl rfl)).1
  · exact (variable_substitution_spec.2.1 [] "missing".data (Or.inl rfl)).2

/-! Model projections: filterSchemas of TypeScriptTypesGenerator
(code-generator.ts), filterOperations and groupOperations of
ApiClientGenerator (api-client-generator.ts).  A JS Record is modelled
as an insertion-ordered association list with unique keys; schema
bodies are opaque (they are plain objects, hence always truthy in the
presence check of the include branch). -/

/-- The ApiOperation shape of optimized-swagger-parser.ts restricted to
the fields the projections read (tags for filtering and grouping, path
for path grouping); parameters, request body and responses are carried
along by the source functions unchanged and are omitted. -/
structure ApiOperation where
  operationId : String
  method : String
  path : String
  summary : Option String := none
  description : Option String := none
  tags : Option (List String) := none
deriving DecidableEq

/-- First-match lookup in a string-keyed record. -/
def recordLookup {α : Type} : List (String × α) → String → Option α
  | [], _ => none
  | (k, v) :: rest, key => if k = key then some v else recordLookup rest key

/-- JS property write on a record: existing key updated in place, new
key appended. -/
def recordSet {α : Type} : List (String × α) → String → α → List (String × α)
  | [], k, v => [(k, v)]
  | (k', v') :: rest, k, v =>
      if k' = k then (k', v) :: rest else (k', v') :: recordSet rest k v

/-- JS delete of a record key. -/
def recordDelete {α : Type} (l : List (String × α)) (k : String) : List (String × α) :=
  l.filter (fun p => p.1 != k)

/-- Truthiness of the guard that an optional name list is given and
nonempty (list && list.length > 0). -/
def listGiven (l : Option (List String)) : Bool :=
  match l with
  | some xs => xs.length > 0
  | none => false

/-- TypeScriptTypesGenerator.filterSchemas: a given nonempty include
list rebuilds the record from the include names that exist in the
input; otherwise a given nonempty exclude list deletes those names from
a copy; otherwise the input is returned. -/
def filterSchemas {α : Type} (schemas : List (String × α))
    (includeSchemas excludeSchemas : Option (List String)) : List (String × α) :=
  if listGiven includeSchemas then
    (includeSchemas.getD []).foldl
      (fun result name =>
        match recordLookup schemas name with
        | some v => recordSet result name v
        | none => result) []
  else if listGiven excludeSchemas then
    (excludeSchemas.getD []).foldl (fun result name => recordDelete result name) schemas
  else schemas

/-- ApiClientGenerator.filterOperations: a given nonempty include-tag
list keeps an operation iff it has tags and some tag is in the list; a
given nonempty exclude-tag list keeps an operation iff it has no tags
or no tag is in the list. -/
def filterOperations (operations : List ApiOperation)
    (includeTags excludeTags : Option (List String)) : List ApiOperation :=
  if listGiven includeTags then
    operations.filter (fun op =>
      match op.tags with
      | some ts => ts.any (fun t => (includeTags.getD []).contains t)
      | none => false)
  else if listGiven excludeTags then
    operations.filter (fun op =>
      match op.tags with
      | some ts => !(ts.any (fun t => (excludeTags.getD []).contains t))
      | none => true)
  else operations

/-- The grouping mode of ApiClientGenerator.groupOperations. -/
inductive GroupBy where
  | tag : GroupBy
  | path : GroupBy
  | none : GroupBy

/-- The group names one operation lands in under a grouping mode: its
tags when present and nonempty (else the default group) for tag mode;
the first nonempty path segment (else the default group) for path
mode. -/
def groupNamesOf (op : ApiOperation) : GroupBy → List String
  | .tag =>
      match op.tags with
      | some ts => if ts.length > 0 then ts else ["default"]
      | none => ["default"]
  | .path =>
      [((op.path.splitOn "/").filter (fun s => s ≠ "")).headD "default"]
  | .none => []

/-- Pushes an operation onto a named group, creating the group at the
end when absent (the grouped[name] initialisation plus push of the
source). -/
def addToGroup : List (String × List ApiOperation) → String → ApiOperation →
    List (String × List ApiOperation)
  | [], name, op => [(name, [op])]
  | (k, l) :: rest, name, op =>
      if k = name then (k, l ++ [op]) :: rest
      else (k, l) :: addToGroup rest name op

/-- ApiClientGenerator.groupOperations: mode none puts every operation
in the single api group; otherwise every operation is pushed into each
of its group names in order. -/
def groupOperations (operations : List ApiOperation) (groupBy : GroupBy) :
    List (String × List ApiOperation) :=
  match groupBy with
  | .none => [("api", operations)]
  | gb =>
      operations.foldl
        (fun grouped op => (groupNamesOf op gb).foldl (fun g n => addToGroup g n op) grouped)
        []

/-- The operation list of one named group (empty when the group does
not exist). -/
def groupLookup : List (String × List ApiOperation) → String → List ApiOperation
  | [], _ => []
  | (k, l) :: rest, g => if k = g then l else groupLookup rest g

theorem mem_groupLookup_addToGroup (grouped : List (String × List ApiOperation))
    (n g : String) (op x : ApiOperation) :
    x ∈ groupLookup (addToGroup grouped n op) g ↔
      x ∈ groupLookup grouped g ∨ (g = n ∧ x = op) := by
  induction grouped with
  | nil =>
      by_cases h : n = g
      · subst h
        simp [addToGroup, groupLookup, eq_comm]
      · simp [addToGroup, groupLookup, if_neg h, Ne.symm h]
  | cons hd tl ih =>
      obtain ⟨kh, lh⟩ := hd
      simp only [addToGroup]
      by_cases hk : kh = n
      · subst hk
        simp only [if_pos rfl, groupLookup]
        by_cases hg : kh = g
        · subst hg
          simp [eq_comm]
        · simp [if_neg hg, Ne.symm hg]
      · simp only [if_neg hk, groupLookup]
        by_cases hg : kh = g
        · have hgn : ¬g = n := fun hh => hk (hg.trans hh)
          simp [if_pos hg, hgn]
        · simp [if_neg hg, ih]

theorem mem_groupLookup_foldl_names (names : List String)
    (acc : List (String × List ApiOperation)) (g : String) (op x : ApiOperation) :
    x ∈ groupLookup (names.foldl (fun gr n => addToGroup gr n op) acc) g ↔
      x ∈ groupLookup acc g ∨ (g ∈ names ∧ x = op) := by
  induction names generalizing acc with
  | nil => simp
  | cons hd tl ih =>
      simp only [List.foldl_cons, ih, mem_groupLookup_addToGroup, List.mem_cons]
      constructor
      · rintro ((h | ⟨hg, hx⟩) | ⟨hg, hx⟩)
        · exact Or.inl h
        · exact Or.inr ⟨Or.inl hg, hx⟩
        · exact Or.inr ⟨Or.inr hg, hx⟩
      · rintro (h | ⟨hg | hg, hx⟩)
        · exact Or.inl (Or.inl h)
        · exact Or.inl (Or.inr ⟨hg, hx⟩)
        · exact Or.inr ⟨hg, hx⟩

theorem mem_groupLookup_foldl_ops (ops : List ApiOperation) (gb : GroupBy)
    (acc : List (String × List ApiOperation)) (g : String) (x : ApiOperation) :
    x ∈ groupLookup
        (ops.foldl
          (fun grouped op => (groupNamesOf op gb).foldl (fun gr n => addToGroup gr n op) grouped)
          acc) g ↔
      x ∈ groupLookup acc g ∨ (x ∈ ops ∧ g ∈ groupNamesOf x gb) := by
  induction ops generalizing acc with
  | nil => simp
  | cons hd tl ih =>
      simp only [List.foldl_cons, ih, mem_groupLookup_foldl_names, List.mem_cons]
      constructor
      · rintro ((h | ⟨hg, hx⟩) | ⟨hm, hg⟩)
        · exact Or.inl h
        · exact Or.inr ⟨Or.inl hx, hx ▸ hg⟩
        · exact Or.inr ⟨Or.inr hm, hg⟩
      · rintro (h | ⟨hx | hm, hg⟩)
        · exact Or.inl (Or.inl h)
        · exact Or.inl (Or.inr ⟨hx ▸ hg, hx⟩)
        · exact Or.inr ⟨hm, hg⟩

/-- C6: for schema-table filtering and operation-tag filtering alike, a
nonempty include list makes the exclude list irrelevant, and absent or
empty lists make the filter the identity. -/
theorem filter_precedence_spec :
    (∀ (α : Type) (schemas : List (String × α)) (inc exc : List String), inc ≠ [] →
        filterSchemas schemas (some inc) (some exc) = filterSchemas schemas (some inc) none) ∧
    (∀ (α : Type) (schemas : List (String × α)) (inc exc : Option (List String)),
        (inc = none ∨ inc = some []) → (exc = none ∨ exc = some []) →
        filterSchemas schemas inc exc = schemas) ∧
    (∀ (ops : List ApiOperation) (inc exc : List String), inc ≠ [] →
        filterOperations ops (some inc) (some exc) = filterOperations ops (some inc) none) ∧
    (∀ (ops : List ApiOperation) (inc exc : Option (List String)),
        (inc = none ∨ inc = some []) → (exc = none ∨ exc = some []) →
        filterOperations ops inc exc = ops) := by
  refine ⟨?_, ?_, ?_, ?_⟩
  · intro α schemas inc exc hne
    have hl : listGiven (some inc) = true := by
      simpa [listGiven] using List.length_pos.mpr hne
    simp [filterSchemas, hl]
  · intro α schemas inc exc hinc hexc
    rcases hinc with h | h <;> rcases hexc with h2 | h2 <;> subst h <;> subst h2 <;> rfl
  · intro ops inc exc hne
    have hl : listGiven (some inc) = true := by
      simpa [listGiven] using List.length_pos.mpr hne
    simp [filterOperations, hl]
  · intro ops inc exc hinc hexc
    rcases hinc with h | h <;> rcases hexc with h2 | h2 <;> subst h <;> subst h2 <;> rfl

/-- A concrete operation with two tags, used to instantiate the
projection lemmas. -/
def sampleOp : ApiOperation :=
  { operationId := "getPets", method := "get", path := "/pets", tags := some ["a", "b"] }

/-- A concrete operation without tags. -/
def untaggedOp : ApiOperation :=
  { operationId := "ping", method := "get", path := "/ping" }

/-- C6 witness: the precedence lemma and the identity lemma
instantiated at concrete tables and operation lists. -/
theorem filter_precedence_spec_witness :
    filterSchemas [("A", 1), ("B", 2)] (some ["B"]) (some ["B"]) =
      filterSchemas [("A", 1), ("B", 2)] (some ["B"]) none ∧
    filterSchemas ([("A", 1)] : List (String × Nat)) none none = [("A", 1)] ∧
    filterOperations [sampleOp] (some ["a"]) (some ["b"]) =
      filterOperations [sampleOp] (some ["a"]) none ∧
    filterOperations [sampleOp] (some []) (some []) = [sampleOp] := by
  refine ⟨?_, ?_, ?_, ?_⟩
  · exact filter_precedence_spec.1 Nat [("A", 1), ("B", 2)] ["B"] ["B"] (by simp)
  · exact filter_precedence_spec.2.1 Nat [("A", 1)] none none (Or.inl rfl) (Or.inl rfl)
  · exact filter_precedence_spec.2.2.1 [sampleOp] ["a"] ["b"] (by simp)
  · exact filter_precedence_spec.2.2.2 [sampleOp] (some []) (some [])
      (Or.inr rfl) (Or.inr rfl)

/-- C7: under tag grouping, an operation from the input list belongs to
the group named g iff g is one of its group names, which are exactly
its tags when it has a nonempty tag list and the single default group
otherwise; mode none yields the single api group holding every
operation. -/
theorem grouping_spec :
    (∀ (ops : List ApiOperation) (op : ApiOperation) (g : String),
        op ∈ groupLookup (groupOperations ops .tag) g ↔
          op ∈ ops ∧ g ∈ groupNamesOf op .tag) ∧
    (∀ (op : ApiOperation) (ts : List String), op.tags = some ts → ts ≠ [] →
        groupNamesOf op .tag = ts) ∧
    (∀ op : ApiOperation, op.tags = none ∨ op.tags = some [] →
        groupNamesOf op .tag = ["default"]) ∧
    (∀ ops : List ApiOperation, groupOperations ops .none = [("api", ops)]) := by
  refine ⟨?_, ?_, ?_, fun ops => rfl⟩
  · intro ops op g
    have h := mem_groupLookup_foldl_ops ops .tag [] g op
    simpa [groupOperations, groupLookup] using h
  · intro op ts hts hne
    simp [groupNamesOf, hts, List.length_pos.mpr hne]
  · intro op h
    rcases h with h | h <;> simp [groupNamesOf, h]

/-- C7 witness: the operation tagged a and b is in both groups, the
untagged operation only lands in the default group, and the tag-name
lemmas instantiated concretely. -/
theorem grouping_spec_witness :
    sampleOp ∈ groupLookup (groupOperations [sampleOp] .tag) "a" ∧
    sampleOp ∈ groupLookup (groupOperations [sampleOp] .tag) "b" ∧
    groupNamesOf sampleOp .tag = ["a", "b"] ∧
    groupNamesOf untaggedOp .tag = ["default"] := by
  refine ⟨?_, ?_, ?_, ?_⟩
  · exact (grouping_spec.1 [sampleOp] sampleOp "a").mpr ⟨by simp, by simp [groupNamesOf, sampleOp]⟩
  · exact (grouping_spec.1 [sampleOp] sampleOp "b").mpr ⟨by simp, by simp [groupNamesOf, sampleOp]⟩
  · exact grouping_spec.2.1 sampleOp ["a", "b"] rfl (by simp)
  · exact grouping_spec.2.2.1 untaggedOp (Or.inl rfl)

/-! Two-tier TTL cache of OptimizedSwaggerApiParser
(optimized-swagger-parser.ts).  The in-memory map and the on-disk
directory are modelled as records from cache key to a timestamp (the
stored timestamp, respectively the file mtime) and the cached raw
document; time is an explicit Nat parameter standing for Date.now().
The md5 hex digest is modelled abstractly by its tagged preimage,
which preserves equality and distinctness of digested strings (md5
collisions lie outside the model).  Document acquisition (network get
or local file read, after the Swagger-UI url resolution) is abstracted
by the source argument; the Bool component of fetchRawApiData records
whether that acquisition was performed. -/

/-- Raw document contents, opaque for the cache model. -/
abbrev RawDoc := String

/-- JSON.stringify of the headers object in insertion order (the quote
escaping of exotic characters inside keys and values is not modelled;
the empty map serialises to the two-character brace pair, which is what
the key-derivation claim turns on). -/
def jsonStringifyHeaders (headers : List (String × String)) : String :=
  "\x7b" ++
    String.intercalate "," (headers.map (fun p => "\"" ++ p.1 ++ "\":\"" ++ p.2 ++ "\"")) ++
    "\x7d"

/-- The md5 hex digest, modelled by its tagged preimage. -/
def md5hex (s : String) : String := "md5:" ++ s

/-- OptimizedSwaggerApiParser.getCacheKey: digest of the url
concatenated with the JSON serialisation of this.headers (which
defaults to the empty object). -/
def getCacheKey (url : String) (headers : List (String × String)) : String :=
  md5hex (url ++ jsonStringifyHeaders headers)

/-- The key OptimizedSwaggerApiParser.clearCache digests when given a
url: the url alone, with no headers serialisation. -/
def clearCacheKey (url : String) : String := md5hex url

/-- The two cache tiers: key to (timestamp, document). -/
structure CacheState where
  mem : List (String × Nat × RawDoc)
  disk : List (String × Nat × RawDoc)
deriving DecidableEq

/-- The process-start cache. -/
def emptyCache : CacheState := ⟨[], []⟩

/-- OptimizedSwaggerApiParser.clearCache: with a url, delete the digest
of the url alone from both tiers; without one, clear both tiers. -/
def clearCache (st : CacheState) : Option String → CacheState
  | some url => ⟨recordDelete st.mem (clearCacheKey url), recordDelete st.disk (clearCacheKey url)⟩
  | none => ⟨[], []⟩

/-- The file-cache half of getFromCache: a disk entry fresher than the
TTL is returned and promoted into the memory tier with the current
time; a stale or missing entry yields nothing. -/
def getFromFileCache (now ttl : Nat) (key : String) (st : CacheState) :
    Option RawDoc × CacheState :=
  match recordLookup st.disk key with
  | some (mt, d) =>
      if now - mt < ttl then (some d, { st with mem := recordSet st.mem key (now, d) })
      else (none, st)
  | none => (none, st)

/-- OptimizedSwaggerApiParser.getFromCache: nothing when caching is
disabled; else the memory tier is consulted first (fresh iff age
strictly below the TTL), falling through to the file tier. -/
def getFromCache (now ttl : Nat) (useCache : Bool) (key : String) (st : CacheState) :
    Option RawDoc × CacheState :=
  if useCache = false then (none, st)
  else
    match recordLookup st.mem key with
    | some (ts, d) =>
        if now - ts < ttl then (some d, st)
        else getFromFileCache now ttl key st
    | none => getFromFileCache now ttl key st

/-- OptimizedSwaggerApiParser.saveToCache: writes the document under
the key into both tiers with the current time. -/
def saveToCache (now : Nat) (useCache : Bool) (key : String) (d : RawDoc) (st : CacheState) :
    CacheState :=
  if useCache then ⟨recordSet st.mem key (now, d), recordSet st.disk key (now, d)⟩ else st

/-- OptimizedSwaggerApiParser.fetchRawApiData: the per-instance
rawApiData short-circuit, then the cache, then the acquisition from the
source, which is stored into both tiers.  Returns (document, whether an
acquisition was performed, new rawApiData field, new cache state). -/
def fetchRawApiData (now ttl : Nat) (useCache : Bool) (key : String) (source : RawDoc)
    (raw : Option RawDoc) (st : CacheState) : RawDoc × Bool × Option RawDoc × CacheState :=
  match raw with
  | some d => (d, false, some d, st)
  | none =>
      match getFromCache now ttl useCache key st with
      | (some d, st') => (d, false, some d, st')
      | (none, st') => (source, true, some source, saveToCache now useCache key source st')

theorem recordLookup_recordSet_self {α : Type} (l : List (String × α)) (k : String) (v : α) :
    recordLookup (recordSet l k v) k = some v := by
  induction l with
  | nil => simp [recordSet, recordLookup]
  | cons hd tl ih =>
      by_cases h : hd.1 = k
      · simp [recordSet, h, recordLookup]
      · simp [recordSet, h, recordLookup, ih]

/-- C2 (code bug): the fetch path stores an entry under the digest of
url ++ headers-JSON — with the default empty header map, url ++ the
two-character brace pair — while clearCache digests the url alone, so
the deleted key differs from the stored key and the entry survives
clearCache in both tiers. -/
theorem clearCache_key_mismatch :
    clearCacheKey "https://x/api.json" ≠ getCacheKey "https://x/api.json" [] ∧
    (clearCache
        (saveToCache 0 true (getCacheKey "https://x/api.json" []) "doc" emptyCache)
        (some "https://x/api.json")).mem.length = 1 ∧
    recordLookup
        (clearCache
          (saveToCache 0 true (getCacheKey "https://x/api.json" []) "doc" emptyCache)
          (some "https://x/api.json")).mem
        (getCacheKey "https://x/api.json" []) = some (0, "doc") ∧
    recordLookup
        (clearCache
          (saveToCache 0 true (getCacheKey "https://x/api.json" []) "doc" emptyCache)
          (some "https://x/api.json")).disk
        (getCacheKey "https://x/api.json" []) = some (0, "doc") := by
  refine ⟨by decide, rfl, rfl, rfl⟩

/-- C3: with caching enabled, a fetch that acquires at time t1 into a
cache with no entry for the key makes a second fetch (fresh parser
instance sharing the static cache) at any time within the TTL return
the identical document without a second acquisition; and when every
cache entry for the key in either tier has age at least the TTL, the
cache yields nothing and the state is untouched, so the fetch
re-acquires the document from the source. -/
theorem cache_ttl_spec :
    (∀ (t1 t2 ttl : Nat) (key : String) (source source2 : RawDoc) (st0 : CacheState),
        recordLookup st0.mem key = none → recordLookup st0.disk key = none →
        t2 - t1 < ttl →
        (fetchRawApiData t2 ttl true key source2 none
            (fetchRawApiData t1 ttl true key source none st0).2.2.2).1 =
          (fetchRawApiData t1 ttl true key source none st0).1 ∧
        (fetchRawApiData t2 ttl true key source2 none
            (fetchRawApiData t1 ttl true key source none st0).2.2.2).2.1 = false) ∧
    (∀ (now ttl : Nat) (key : String) (source : RawDoc) (st : CacheState),
        (∀ ts d, recordLookup st.mem key = some (ts, d) → ttl ≤ now - ts) →
        (∀ mt d, recordLookup st.disk key = some (mt, d) → ttl ≤ now - mt) →
        getFromCache now ttl true key st = (none, st) ∧
        (fetchRawApiData now ttl true key source none st).1 = source ∧
        (fetchRawApiData now ttl true key source none st).2.1 = true) := by
  constructor
  · intro t1 t2 ttl key source source2 st0 hm hd hfresh
    have h1 : fetchRawApiData t1 ttl true key source none st0 =
        (source, true, some source, saveToCache t1 true key source st0) := by
      simp [fetchRawApiData, getFromCache, getFromFileCache, hm, hd]
    rw [h1]
    simp [fetchRawApiData, getFromCache, saveToCache, recordLookup_recordSet_self, hfresh]
  · intro now ttl key source st hm hd
    have hc : getFromCache now ttl true key st = (none, st) := by
      unfold getFromCache getFromFileCache
      simp only [Bool.true_eq_false, if_false]
      cases hmem : recordLookup st.mem key with
      | some p =>
          obtain ⟨ts, d⟩ := p
          have hts := hm ts d hmem
          have : ¬(now - ts < ttl) := by omega
          simp only [this, if_false]
          cases hdisk : recordLookup st.disk key with
          | some q =>
              obtain ⟨mt, d2⟩ := q
              have hmt := hd mt d2 hdisk
              have : ¬(now - mt < ttl) := by omega
              simp [this]
          | none => simp
      | none =>
          cases hdisk : recordLookup st.disk key with
          | some q =>
              obtain ⟨mt, d2⟩ := q
              have hmt := hd mt d2 hdisk
              have : ¬(now - mt < ttl) := by omega
              simp [this]
          | none => simp
    refine ⟨hc, ?_, ?_⟩ <;> simp [fetchRawApiData, hc]

/-- C3 witness: a miss-then-hit pair of fetches fifty time units apart
under a TTL of one hundred, and a stale memory entry of age two hundred
that is ignored so the fetch re-acquires. -/
theorem cache_ttl_spec_witness :
    ((fetchRawApiData 50 100 true "k" "other" none
        (fetchRawApiData 0 100 true "k" "doc" none emptyCache).2.2.2).1 =
      (fetchRawApiData 0 100 true "k" "doc" none emptyCache).1 ∧
      (fetchRawApiData 50 100 true "k" "other" none
        (fetchRawApiData 0 100 true "k" "doc" none emptyCache).2.2.2).2.1 = false) ∧
    getFromCache 200 100 true "k" ⟨[("k", 0, "doc")], []⟩ = (none, ⟨[("k", 0, "doc")], []⟩) ∧
    (fetchRawApiData 200 100 true "k" "fresh" none ⟨[("k", 0, "doc")], []⟩).1 = "fresh" ∧
    (fetchRawApiData 200 100 true "k" "fresh" none ⟨[("k", 0, "doc")], []⟩).2.1 = true := by
  refine ⟨?_, ?_, ?_, ?_⟩
  · exact cache_ttl_spec.1 0 50 100 "k" "doc" "other" emptyCache rfl rfl (by decide)
  all_goals {
    have h := cache_ttl_spec.2 200 100 "k" "fresh" ⟨[("k", 0, "doc")], []⟩
      (by
        intro ts d hts
        simp [recordLookup] at hts
        omega)
      (by
        intro mt d hmt
        simp [recordLookup] at hmt)
    first
      | exact h.1
      | exact h.2.1
      | exact h.2.2
  }

/-! Template manager (template-manager.ts).  The manager state holds the
loaded built-in and custom template lists; the persistent store holds
the on-disk template bodies (relative path to text) and the custom
manifest file (templates.json, entries with the content stripped). -/

/-- TemplateType of template-manager.ts. -/
inductive TemplateType where
  | apiClient : TemplateType
  | typescriptTypes : TemplateType
  | configFile : TemplateType
deriving DecidableEq

/-- The Template record (content optional, provenance flag optional as
in the TS interface). -/
structure Template where
  id : String
  name : String
  ttype : TemplateType
  framework : Option String := none
  tpath : Option String := none
  content : Option String := none
  isBuiltIn : Option Bool := none
  description : Option String := none
deriving DecidableEq

/-- The in-memory template lists of TemplateManager. -/
structure TemplateManagerState where
  builtInTemplates : List Template
  customTemplates : List Template
deriving DecidableEq

/-- The persisted custom-template store: body files and the manifest. -/
structure TemplateStore where
  bodies : List (String × String)
  manifest : List Template
deriving DecidableEq

/-- TemplateManager.getTemplate: first id match over built-ins then
customs. -/
def getTemplate (st : TemplateManagerState) (id : String) : Option Template :=
  (st.builtInTemplates ++ st.customTemplates).find? (fun t => t.id = id)

/-- The save path chosen per template type (the final else branch of
the source is unreachable for the three-valued enum). -/
def templateRelativePath (t : Template) : String :=
  match t.ttype with
  | .apiClient => "api-client/" ++ t.id ++ ".tpl"
  | .typescriptTypes => "typescript-types/" ++ t.id ++ ".tpl"
  | .configFile => "config/" ++ t.id ++ ".tpl"

/-- The manifest strips the content field from each entry. -/
def stripContent (t : Template) : Template := { t with content := none }

/-- TemplateManager.updateCustomTemplatesConfig: rewrite the manifest
from the in-memory custom list. -/
def updateCustomTemplatesConfig (st : TemplateManagerState) (store : TemplateStore) :
    TemplateStore :=
  { store with manifest := st.customTemplates.map stripContent }

/-- TemplateManager.saveCustomTemplate as a state transition: the
built-in collision check throws before any write; otherwise the body
file is written, the in-memory custom list is updated (replace at the
matching id, else append) and the manifest is rewritten. -/
def saveCustomTemplate (st : TemplateManagerState) (store : TemplateStore) (t : Template) :
    (TemplateManagerState × TemplateStore) × Except String Template :=
  if ((getTemplate st t.id).map (fun e => e.isBuiltIn.getD false)).getD false then
    ((st, store), .error ("Cannot override built-in template: " ++ t.id))
  else
    let relativePath := templateRelativePath t
    let store1 : TemplateStore :=
      { store with bodies := recordSet store.bodies relativePath (t.content.getD "") }
    let newTemplate : Template :=
      { id := t.id, name := t.name, ttype := t.ttype, framework := t.framework,
        tpath := some relativePath, description := t.description, isBuiltIn := some false,
        content := t.content }
    let newCustoms :=
      match st.customTemplates.findIdx? (fun c => c.id = t.id) with
      | some i => st.customTemplates.set i newTemplate
      | none => st.customTemplates ++ [newTemplate]
    let st1 : TemplateManagerState := { st with customTemplates := newCustoms }
    ((st1, updateCustomTemplatesConfig st1 store1), .ok newTemplate)

/-- C8: saving a template whose id equals a built-in id (the built-in
list carrying its load-time provenance flag) returns the descriptive
failure and leaves the in-memory custom list, the body files and the
manifest exactly as they were. -/
theorem save_builtin_collision_rejected (st : TemplateManagerState) (store : TemplateStore)
    (t : Template) (hflag : ∀ b ∈ st.builtInTemplates, b.isBuiltIn = some true)
    (hcoll : ∃ b ∈ st.builtInTemplates, b.id = t.id) :
    saveCustomTemplate st store t =
      ((st, store), .error ("Cannot override built-in template: " ++ t.id)) := by
  obtain ⟨b, hb, hid⟩ := hcoll
  have hsome : (st.builtInTemplates.find? (fun x => x.id = t.id)).isSome := by
    rw [List.find?_isSome]
    exact ⟨b, hb, by simp [hid]⟩
  obtain ⟨b0, hb0⟩ := Option.isSome_iff_exists.mp hsome
  have hmem : b0 ∈ st.builtInTemplates := List.mem_of_find?_eq_some hb0
  have hget : getTemplate st t.id = some b0 := by
    unfold getTemplate
    rw [List.find?_append, hb0]
    rfl
  have hbuiltin : b0.isBuiltIn = some true := hflag b0 hmem
  unfold saveCustomTemplate
  rw [hget]
  simp [hbuiltin]

/-- C8 witness: a save colliding with a concrete built-in id is
rejected and changes nothing. -/
theorem save_builtin_collision_rejected_witness :
    saveCustomTemplate
        ⟨[{ id := "fetch-client", name := "Fetch", ttype := .apiClient,
            isBuiltIn := some true }], []⟩
        ⟨[], []⟩
        { id := "fetch-client", name := "Mine", ttype := .apiClient,
          content := some "body" } =
      ((⟨[{ id := "fetch-client", name := "Fetch", ttype := .apiClient,
            isBuiltIn := some true }], []⟩, ⟨[], []⟩),
        .error "Cannot override built-in template: fetch-client") := by
  have h := save_builtin_collision_rejected
    ⟨[{ id := "fetch-client", name := "Fetch", ttype := .apiClient, isBuiltIn := some true }], []⟩
    ⟨[], []⟩
    { id := "fetch-client", name := "Mine", ttype := .apiClient, content := some "body" }
    (by
      intro b hb
      simp at hb
      subst hb
      rfl)
    ⟨{ id := "fetch-client", name := "Fetch", ttype := .apiClient, isBuiltIn := some true },
      by simp, rfl⟩
  simpa using h

/-! Progress reporting of OptimizedSwaggerApiParser.fetchApi.  One call
is abstracted by the environment record below; the trace lists, in
order, the numeric fractions handed to reportProgress (and hence to the
optional progress callback) on that call, as emitted by fetchApi,
parseApiLite, fetchRawApiData, getFromCache and resolveSwaggerDocUrl. -/

/-- The facts about one fetchApi call that determine which progress
reports fire. -/
structure FetchEnv where
  lazyLoading : Bool
  useCache : Bool
  hasRaw : Bool
  cacheHit : Bool
  uiUrl : Bool
  probeFailures : Nat
  probeFound : Bool
  acquireOk : Bool
  skipValidation : Bool
  validateOk : Bool

/-- Fractions reported by resolveSwaggerDocUrl: nothing for a direct
document url; for a recognised UI page, the detection report, one
candidate report per probed endpoint (nine candidates, stopping at the
first valid one), and the found / not-found report. -/
def resolverTrace (env : FetchEnv) : List ℚ :=
  if env.uiUrl then
    (1/10 : ℚ) ::
      (if env.probeFound then
        List.replicate (min env.probeFailures 8 + 1) (3/20 : ℚ) ++ [(1/5 : ℚ)]
      else
        List.replicate 9 (3/20 : ℚ) ++ [(1/5 : ℚ)])
  else []

/-- Whether getFromCache yields a document on this call. -/
def cacheYields (env : FetchEnv) : Bool := env.useCache && env.cacheHit

/-- Fractions reported by fetchRawApiData: nothing when rawApiData is
already set; the cache-load report on a cache hit; otherwise the
acquisition-start report, the resolver reports, and the success report
when the acquisition succeeds (an acquisition failure throws before
it). -/
def rawTrace (env : FetchEnv) : List ℚ :=
  if env.hasRaw then []
  else if cacheYields env then [(1/10 : ℚ)]
  else (3/10 : ℚ) :: (resolverTrace env ++ (if env.acquireOk then [(1/2 : ℚ)] else []))

/-- Whether fetchRawApiData completes without throwing. -/
def rawOk (env : FetchEnv) : Bool := env.hasRaw || cacheYields env || env.acquireOk

/-- Fractions reported by parseApiLite: the lite-parse start report
fires before the raw data is fetched, then the structure-parse report
when the raw data arrived. -/
def parseLiteTrace (env : FetchEnv) : List ℚ :=
  (3/5 : ℚ) :: (rawTrace env ++ (if rawOk env then [(7/10 : ℚ)] else []))

/-- Fractions reported by one fetchApi call: the lazy path runs
parseApiLite; the eager path fetches raw data first, then reports the
full-parse start and, when strict validation runs and fails, the
fallback report; both the success return and the catch handler finish
with the terminal report of one. -/
def fetchApiTrace (env : FetchEnv) : List ℚ :=
  (if env.lazyLoading then parseLiteTrace env
  else
    rawTrace env ++
      (if rawOk env then
        (3/5 : ℚ) ::
          (if env.skipValidation then [] else if env.validateOk then [] else [(7/10 : ℚ)])
      else [])) ++ [(1 : ℚ)]

/-- The default-configuration cache-miss lazy call used to refute
monotonicity. -/
def lazyMissEnv : FetchEnv :=
  { lazyLoading := true, useCache := true, hasRaw := false, cacheHit := false,
    uiUrl := false, probeFailures := 0, probeFound := false, acquireOk := true,
    skipValidation := false, validateOk := true }

/-- An eager call on a Swagger-UI url whose first probed endpoint is
valid. -/
def eagerUiEnv : FetchEnv :=
  { lazyLoading := false, useCache := true, hasRaw := false, cacheHit := false,
    uiUrl := true, probeFailures := 0, probeFound := true, acquireOk := true,
    skipValidation := true, validateOk := true }

/-- C9 counterexample: under the default options (lazy loading on) a
cache-miss fetch reports the fractions 0.6, 0.3, 0.5, 0.7, 1.0 in that
order — the lite-parse start report precedes the acquisition reports —
so the reported sequence is not monotonically non-decreasing. -/
theorem progress_monotone_cex :
    fetchApiTrace lazyMissEnv = [3/5, 3/10, 1/2, 7/10, 1] ∧
    ¬ List.Chain' (· ≤ ·) (fetchApiTrace lazyMissEnv) := by
  constructor
  · rfl
  · intro h
    rw [show fetchApiTrace lazyMissEnv = [3/5, 3/10, 1/2, 7/10, 1] from rfl] at h
    simp [List.chain'_cons] at h
    rcases h with ⟨h1, _⟩
    norm_num at h1

/-- C9 (amended): every fetchApi call ends its report sequence with the
terminal fraction one, on the success and the failure path alike; the
sequence is monotonically non-decreasing whenever lazy loading is
disabled and the reference is not a recognised Swagger-UI page, but the
lazy path prepends its 0.6 report to the acquisition reports and the
UI-page resolver emits its 0.1 to 0.2 reports after the 0.3
acquisition-start report, in both cases producing a decrease. -/
theorem progress_reports_amended :
    (∀ env : FetchEnv, (fetchApiTrace env).getLast? = some 1) ∧
    (∀ env : FetchEnv, env.lazyLoading = false → env.uiUrl = false →
        List.Chain' (· ≤ ·) (fetchApiTrace env)) ∧
    fetchApiTrace eagerUiEnv = [3/10, 1/10, 3/20, 1/5, 1/2, 3/5, 1] ∧
    ¬ List.Chain' (· ≤ ·) (fetchApiTrace eagerUiEnv) := by
  refine ⟨?_, ?_, rfl, ?_⟩
  · intro env
    unfold fetchApiTrace
    simp
  · intro env hl hu
    obtain ⟨lazy, uc, hr, ch, ui, pf, pfd, aok, sv, vok⟩ := env
    simp only at hl hu
    subst hl
    subst hu
    unfold fetchApiTrace parseLiteTrace rawTrace rawOk resolverTrace cacheYields
    cases uc <;> cases hr <;> cases ch <;> cases aok <;> cases sv <;> cases vok <;>
      simp [List.chain'_cons] <;> norm_num
  · intro h
    rw [show fetchApiTrace eagerUiEnv = [3/10, 1/10, 3/20, 1/5, 1/2, 3/5, 1] from rfl] at h
    simp [List.chain'_cons] at h
    rcases h with ⟨h1, _⟩
    norm_num at h1

/-- The same cache-miss call with lazy loading disabled. -/
def eagerMissEnv : FetchEnv := { lazyMissEnv with lazyLoading := false }

/-- C9 amended witness: the monotonicity lemma instantiated at the
eager non-UI cache-miss call, and the terminal-report lemma at the lazy
one. -/
theorem progress_reports_amended_witness :
    (fetchApiTrace lazyMissEnv).getLast? = some 1 ∧
    List.Chain' (· ≤ ·) (fetchApiTrace eagerMissEnv) :=
  ⟨progress_reports_amended.1 lazyMissEnv,
    progress_reports_amended.2.1 eagerMissEnv rfl rfl⟩

end SwaggerMcp
